import Mathlib

/-!
Shallow embedding of the sweep module (src/sweep.c): the Emacs-value / Prolog-term
conversion layer and the single-query execution state machine built on top of it.

Host (Emacs) values are modelled by `Value`, engine (Prolog) terms by `Term`.
An `emacs_value` result that may be NULL is modelled as `Option Value`.
The engine library calls (PL_*) and the Emacs module API are external to the
repository; where their behaviour decides an outcome it is modelled from the
spec and from the way the source uses them, and noted in the doc comment.
-/

namespace Sweep

/-- Host values, as in the spec data model: nil, the boolean-true sentinel t,
interned symbols, strings, integers and cons pairs. -/
inductive Value where
  | nil
  | t
  | symbol (s : String)
  | str (s : String)
  | int (i : Int)
  | cons (a b : Value)
deriving DecidableEq

/-- env->intern: the names nil and t denote the host boolean sentinels,
every other name an ordinary symbol. -/
def intern (s : String) : Value :=
  if s = "nil" then Value.nil else if s = "t" then Value.t else Value.symbol s

/-- Engine terms as discriminated by PL_term_type (src/sweep.c lines 179-206):
variables, atoms, strings, integers, floats, the empty list, list pairs,
compounds of arity at least one, dicts, blobs, and `unknown` for any other
dynamic type tag (the switch's default case). -/
inductive Term where
  | var
  | atom (s : String)
  | str (s : String)
  | int (i : Int)
  | float
  | nil
  | cons (h t : Term)
  | compound (f : String) (args : List Term)
  | dict
  | blob
  | unknown (tag : Nat)

/-- Smallest signed 64-bit integer. -/
def int64Min : Int := -(2 ^ 63)

/-- Largest signed 64-bit integer. -/
def int64Max : Int := 2 ^ 63 - 1

/-- Whether an integer fits a signed 64-bit machine word (the domain on which
PL_get_int64 succeeds). -/
def int64Fits (i : Int) : Bool := decide (int64Min ≤ i ∧ i ≤ int64Max)

/-- econs (src/sweep.c lines 48-52): builds a host cons cell from two
emacs_value results; a NULL argument poisons the call (the C code would hand
NULL to funcall). -/
def econs : Option Value → Option Value → Option Value
  | some a, some b => some (Value.cons a b)
  | _, _ => none

/-- The host list builder (the elisp function list): a proper list,
right-nested cons cells ending in nil. -/
def elispList : List Value → Value
  | [] => Value.nil
  | v :: vs => Value.cons v (elispList vs)

/-- estring_to_cstring (src/sweep.c lines 10-33). Modelled from the spec on
the host side: copy_string_contents probes a byte length that includes a
trailing terminator slot, the buffer of that length is allocated, zeroed and
filled with the text. Returns the decoded text with the probed length; none
models the NULL return (the probe fails on a non-string input and ethrow
raises a signal). malloc is modelled as succeeding. -/
def estring_to_cstring : Value → Option (String × Nat)
  | Value.str s => some (s, s.utf8ByteSize + 1)
  | _ => none

/-- estring_to_pstring (src/sweep.c lines 35-46): decode the host string,
then PL_put_string_nchars with character count len - 1, which takes exactly
the decoded text without the terminator slot. Returns the built string term
together with the character count that was passed. -/
def estring_to_pstring (v : Value) : Option (Term × Nat) :=
  match estring_to_cstring v with
  | none => none
  | some (s, len) => some (Term.str s, len - 1)

mutual

/-- term_to_value (src/sweep.c lines 179-206) with the per-type helpers
inlined case by case: variable/dict/blob map to their sentinel symbols
(lines 125-141); PL_FLOAT calls term_to_value_blob (line 200); an atom
becomes the tagged pair (atom . text) (lines 111-123); a string its text
(lines 100-109); an integer is read through PL_get_int64, NULL when the
value does not fit 64 bits (lines 89-98); nil maps to nil (line 188); a list
pair converts head and tail through econs (lines 79-87); a compound becomes
(compound . (functor-text arg1 ... argN)) (lines 149-176); any other
dynamic type maps to the symbol unconvertable (line 204). -/
def term_to_value : Term → Option Value
  | Term.var => some (intern "variable")
  | Term.atom s => econs (some (intern "atom")) (some (Value.str s))
  | Term.str s => some (Value.str s)
  | Term.int i => if int64Fits i then some (Value.int i) else none
  | Term.float => some (intern "blob")
  | Term.nil => some Value.nil
  | Term.cons h t => econs (term_to_value h) (term_to_value t)
  | Term.compound f args =>
      econs (some (intern "compound"))
        ((seqArgs args).map (fun vs => elispList (Value.str f :: vs)))
  | Term.dict => some (intern "dict")
  | Term.blob => some (intern "blob")
  | Term.unknown _ => some (intern "unconvertable")

/-- The argument loop of term_to_value_compound (src/sweep.c lines 169-173):
converts the arguments in order; a NULL element poisons the host list call. -/
def seqArgs : List Term → Option (List Value)
  | [] => some []
  | a :: rest =>
      match term_to_value a, seqArgs rest with
      | some v, some vs => some (v :: vs)
      | _, _ => none

end

/-- value_to_term (src/sweep.c lines 236-251): nil maps to the empty-list
term (PL_put_nil); a string goes through estring_to_pstring; an integer is
extracted and written with PL_put_int64 (extract_integer is exact on the
host fixnum range, which fits intmax); a cons converts car and cdr and
composes them with PL_cons_list, propagating the first failure; any other
host type fails (r = -1), with no signal raised. none models r < 0. -/
def value_to_term : Value → Option Term
  | Value.nil => some Term.nil
  | Value.str s => (estring_to_pstring (Value.str s)).map Prod.fst
  | Value.int i => some (Term.int i)
  | Value.cons a b =>
      match value_to_term a with
      | none => none
      | some h =>
        match value_to_term b with
        | none => none
        | some t => some (Term.cons h t)
  | _ => none

/-- Bytes handed to malloc for the vals array of term_to_value_compound
(src/sweep.c line 160): sizeof(emacs_value)*arity + 1. -/
def compound_vals_alloc_bytes (szEmacsValue arity : Nat) : Nat :=
  szEmacsValue * arity + 1

/-- Bytes handed to memset for the same array (src/sweep.c line 165): the
same expression as the allocation. -/
def compound_vals_memset_bytes (szEmacsValue arity : Nat) : Nat :=
  szEmacsValue * arity + 1

/-- Bytes needed to hold arity+1 emacs_value slots: the loop writes vals[0]
through vals[arity] (src/sweep.c lines 167-173). -/
def compound_vals_needed_bytes (szEmacsValue arity : Nat) : Nat :=
  szEmacsValue * (arity + 1)

/-- Engine-side query state visible to the bridge, together with the
process-wide retained output reference o (src/sweep.c line 8). current is
PL_current_query (none models the qid 0), nextQ supplies fresh query ids,
and o records which query's output-argument slot the global o points at
(none models the initial 0). -/
structure BState where
  current : Option Nat
  nextQ : Nat
  o : Option Nat
deriving DecidableEq

/-- Result of PL_next_solution under PL_Q_EXT_STATUS. Modelled from the
spec: the four documented outcomes are exception, no-more-solutions, a
solution, and a provably-last solution; any other return code is a
defensively unreachable case. A solution outcome carries the instantiation
of the output-argument term at that solution, and the exception outcome
carries the term PL_exception returns. -/
inductive EngineStep where
  | exc (e : Term)
  | sfalse
  | strue (sol : Term)
  | slast (sol : Term)

/-- Result of PL_cut_query or PL_close_query: TRUE, or FALSE together with
the exception term PL_exception reports. -/
inductive EngineFin where
  | ok
  | err (e : Term)

/-- Observable outcome of one entry-point call: the pending host signal that
ethrow raised, if any (src/sweep.c lines 64-71), and the returned
emacs_value, with none modelling NULL. -/
structure CallOut where
  signal : Option String
  ret : Option Value

/-- sweep_next_solution (src/sweep.c lines 297-323): with no current query,
ethrow "No current query" and return NULL; otherwise dispatch on the
engine's step result, building the exception pair, nil, the t-tagged pair,
or the bang-tagged pair. The solution pairs convert the retained output
reference o, whose instantiation the engine outcome carries. The query
stays current in every case. -/
def sweep_next_solution (s : BState) (r : EngineStep) : CallOut × BState :=
  match s.current with
  | none => (⟨some "No current query", none⟩, s)
  | some _ =>
    match r with
    | EngineStep.exc e =>
        (⟨none, econs (some (intern "exception")) (term_to_value e)⟩, s)
    | EngineStep.sfalse => (⟨none, some Value.nil⟩, s)
    | EngineStep.strue sol =>
        (⟨none, econs (some Value.t) (term_to_value sol)⟩, s)
    | EngineStep.slast sol =>
        (⟨none, econs (some (intern "!")) (term_to_value sol)⟩, s)

/-- sweep_cut_query (src/sweep.c lines 275-295): with no current query,
ethrow "No current query" and return NULL; otherwise PL_cut_query ends the
query retaining its bindings and the call returns t, or the converted
exception term on engine-reported failure. Modelled from the engine
contract: after PL_cut_query the current query reads as closed. -/
def sweep_cut_query (s : BState) (r : EngineFin) : CallOut × BState :=
  match s.current with
  | none => (⟨some "No current query", none⟩, s)
  | some _ =>
    match r with
    | EngineFin.ok => (⟨none, some Value.t⟩, { s with current := none })
    | EngineFin.err e => (⟨none, term_to_value e⟩, { s with current := none })

/-- sweep_close_query (src/sweep.c lines 253-273): the same host-facing
contract as sweep_cut_query; PL_close_query discards the bindings instead
of retaining them, a difference internal to the engine. Modelled from the
engine contract: after PL_close_query the current query reads as closed. -/
def sweep_close_query (s : BState) (r : EngineFin) : CallOut × BState :=
  match s.current with
  | none => (⟨some "No current query", none⟩, s)
  | some _ =>
    match r with
    | EngineFin.ok => (⟨none, some Value.t⟩, { s with current := none })
    | EngineFin.err e => (⟨none, term_to_value e⟩, { s with current := none })

/-- Accounting for one sweep_open_query call: the pending signal, the
returned emacs_value, how many decode buffers estring_to_cstring allocated
during the call, how many the cleanup block freed, and whether the query
was opened. -/
structure OpenOut where
  signal : Option String
  ret : Option Value
  buffersAllocated : Nat
  buffersFreed : Nat
  opened : Bool
deriving DecidableEq

/-- sweep_open_query (src/sweep.c lines 325-372): reject when a query is
already current (ethrow, nothing allocated); decode the three name strings
in order, each failure jumping to the cleanup block which frees exactly the
buffers already allocated; convert the input value, whose failure likewise
jumps to cleanup but raises no signal; on success PL_open_query makes a
fresh query current and o is set to its second-argument slot (line 364).
Every path returns t. PL_new_module, PL_predicate and PL_open_query are
modelled from the engine contract as succeeding. -/
def sweep_open_query (s : BState) (cm pm pn inp : Value) : OpenOut × BState :=
  if s.current.isSome then
    (⟨some "Prolog is already executing a query", some Value.t, 0, 0, false⟩, s)
  else
    match estring_to_cstring cm with
    | none => (⟨some "Failed to get string length", some Value.t, 0, 0, false⟩, s)
    | some _ =>
      match estring_to_cstring pm with
      | none => (⟨some "Failed to get string length", some Value.t, 1, 1, false⟩, s)
      | some _ =>
        match estring_to_cstring pn with
        | none => (⟨some "Failed to get string length", some Value.t, 2, 2, false⟩, s)
        | some _ =>
          match value_to_term inp with
          | none => (⟨none, some Value.t, 3, 3, false⟩, s)
          | some _ =>
              (⟨none, some Value.t, 3, 3, true⟩,
               ⟨some s.nextQ, s.nextQ + 1, some s.nextQ⟩)

/-- One call against the bridge: the four query entry points, with the
engine's reaction to Step/Cut/Close supplied as data. -/
inductive Op where
  | openq (cm pm pn inp : Value)
  | stepq (r : EngineStep)
  | cutq (r : EngineFin)
  | closeq (r : EngineFin)

/-- The process starts with no current query and o at its initial 0. -/
def initState : BState := ⟨none, 0, none⟩

/-- State transition of one entry-point call. -/
def applyOp (s : BState) : Op → BState
  | Op.openq a b c v => (sweep_open_query s a b c v).2
  | Op.stepq r => (sweep_next_solution s r).2
  | Op.cutq r => (sweep_cut_query s r).2
  | Op.closeq r => (sweep_close_query s r).2

/-- State after a sequence of entry-point calls from the initial state. -/
def run (ops : List Op) : BState := ops.foldl applyOp initState

/-- Whether the engine outcome is one of the two solution outcomes. -/
def solutionOutcome : EngineStep → Bool
  | EngineStep.strue _ => true
  | EngineStep.slast _ => true
  | _ => false

/-- Whether sweep_next_solution dereferences the retained output reference o
on this call: only after the current-query check passes and only on the two
solution outcomes (src/sweep.c lines 317 and 319). -/
def stepDerefsO (s : BState) (r : EngineStep) : Bool :=
  s.current.isSome && solutionOutcome r

mutual

/-- Every integer subterm fits a signed 64-bit machine word. -/
def intsFit : Term → Bool
  | Term.int i => int64Fits i
  | Term.cons h t => intsFit h && intsFit t
  | Term.compound _ args => intsFitList args
  | _ => true

/-- intsFit over an argument list. -/
def intsFitList : List Term → Bool
  | [] => true
  | a :: rest => intsFit a && intsFitList rest

end

/-- Host values built purely from the String, Integer, Nil and Cons
variants, with integers in the signed 64-bit range of the data model. -/
inductive PureSINC : Value → Prop where
  | nil : PureSINC Value.nil
  | str (s : String) : PureSINC (Value.str s)
  | int (i : Int) (h : int64Fits i = true) : PureSINC (Value.int i)
  | cons {a b : Value} : PureSINC a → PureSINC b → PureSINC (Value.cons a b)

/-- The o-coherence invariant: whenever a query is current, the retained
output reference o points at that query's output slot. -/
def OInv (s : BState) : Prop := ∀ q, s.current = some q → s.o = some q

/-- A successful argument-list conversion preserves the number of
elements. -/
theorem seqArgs_length (args : List Term) (vs : List Value)
    (h : seqArgs args = some vs) : vs.length = args.length := by
  induction args generalizing vs with
  | nil =>
      simp only [seqArgs] at h
      cases h
      rfl
  | cons a rest ih =>
      rw [seqArgs] at h
      cases h1 : term_to_value a with
      | none => rw [h1] at h; cases h
      | some v =>
          cases h2 : seqArgs rest with
          | none => rw [h1, h2] at h; cases h
          | some ws =>
              rw [h1, h2] at h
              cases h
              simp [ih ws h2]

/-- C1: for every host value built purely from the String, Integer, Nil and
Cons variants, the Value-to-Term converter succeeds and the Term-to-Value
converter maps the resulting term back to a structurally equal value. -/
theorem c1_value_term_round_trip (v : Value) (h : PureSINC v) :
    ∃ t, value_to_term v = some t ∧ term_to_value t = some v := by
  induction h with
  | nil => exact ⟨Term.nil, rfl, rfl⟩
  | str s => exact ⟨Term.str s, rfl, rfl⟩
  | int i hf =>
      refine ⟨Term.int i, rfl, ?_⟩
      rw [term_to_value, hf]
      simp
  | cons ha hb iha ihb =>
      obtain ⟨ta, hva, hta⟩ := iha
      obtain ⟨tb, hvb, htb⟩ := ihb
      refine ⟨Term.cons ta tb, ?_, ?_⟩
      · rw [value_to_term, hva, hvb]
      · rw [term_to_value, hta, htb]
        rfl

/-- C1 witness at V = Cons (String "ab") (Cons (Integer 5) Nil). -/
theorem c1_value_term_round_trip_witness :
    ∃ t, value_to_term (Value.cons (Value.str "ab")
        (Value.cons (Value.int 5) Value.nil)) = some t ∧
      term_to_value t = some (Value.cons (Value.str "ab")
        (Value.cons (Value.int 5) Value.nil)) :=
  c1_value_term_round_trip _ (PureSINC.cons (PureSINC.str "ab")
    (PureSINC.cons (PureSINC.int 5 (by decide)) PureSINC.nil))

/-- C5: the Term-to-Value converter sends dicts to the symbol dict and blobs
to the symbol blob, but sends floats to the symbol blob as well, not to the
symbol float: the PL_FLOAT case of the dispatch calls term_to_value_blob
(src/sweep.c line 200), leaving term_to_value_float unused. -/
theorem c5_float_sentinel_is_blob :
    term_to_value Term.dict = some (Value.symbol "dict") ∧
    term_to_value Term.blob = some (Value.symbol "blob") ∧
    term_to_value Term.float = some (Value.symbol "blob") ∧
    term_to_value Term.float ≠ some (Value.symbol "float") :=
  ⟨rfl, rfl, rfl, by decide⟩

/-- C7: the vals array of the compound converter is allocated and zeroed
with sizeof(emacs_value)*arity + 1 bytes, while holding the arity+1 written
slots needs sizeof(emacs_value)*(arity+1) bytes; with 8-byte pointers and
arity 1 that is 9 bytes allocated against 16 bytes written. -/
theorem c7_vals_allocation_undersized :
    compound_vals_alloc_bytes 8 1 = 9 ∧
    compound_vals_needed_bytes 8 1 = 16 ∧
    compound_vals_alloc_bytes 8 1 < compound_vals_needed_bytes 8 1 ∧
    compound_vals_memset_bytes 8 1 = compound_vals_alloc_bytes 8 1 :=
  ⟨rfl, rfl, by decide, rfl⟩

/-- C8: the host string-length probe reports the byte length including a
trailing terminator slot, and the string term is constructed with character
count length - 1, recovering exactly the decoded text. -/
theorem c8_string_length_convention (s : String) :
    estring_to_cstring (Value.str s) = some (s, s.utf8ByteSize + 1) ∧
    estring_to_pstring (Value.str s) =
      some (Term.str s, (s.utf8ByteSize + 1) - 1) :=
  ⟨rfl, rfl⟩

/-- C9 counterexample: the Term-to-Value converter is not total: an engine
integer just outside the signed 64-bit range converts to no host value at
all (PL_get_int64 fails and term_to_value_integer returns NULL). -/
theorem c9_not_total_counterexample :
    term_to_value (Term.int (2 ^ 63)) = none := by
  have h : int64Fits (2 ^ 63) = false := by decide
  rw [term_to_value, h]
  simp

/-- Totality of the Term-to-Value converter on terms whose integer subterms
fit signed 64 bits, by strong induction on the size bound, jointly with the
argument-list loop. -/
theorem t2v_total_aux (n : Nat) :
    (∀ t : Term, sizeOf t ≤ n → intsFit t = true →
      (term_to_value t).isSome = true) ∧
    (∀ l : List Term, sizeOf l ≤ n → intsFitList l = true →
      (seqArgs l).isSome = true) := by
  induction n with
  | zero =>
      constructor
      · intro t ht _
        exfalso
        cases t <;> simp at ht
      · intro l hl _
        exfalso
        cases l <;> simp at hl
  | succ n ih =>
      constructor
      · intro t ht hfit
        cases t with
        | var => rfl
        | atom s => rfl
        | str s => rfl
        | int i =>
            rw [intsFit] at hfit
            rw [term_to_value, hfit]
            rfl
        | float => rfl
        | nil => rfl
        | cons a b =>
            rw [intsFit, Bool.and_eq_true] at hfit
            have ha : sizeOf a ≤ n := by simp at ht; omega
            have hb : sizeOf b ≤ n := by simp at ht; omega
            obtain ⟨va, hva⟩ := Option.isSome_iff_exists.mp (ih.1 a ha hfit.1)
            obtain ⟨vb, hvb⟩ := Option.isSome_iff_exists.mp (ih.1 b hb hfit.2)
            rw [term_to_value, hva, hvb]
            rfl
        | compound f args =>
            rw [intsFit] at hfit
            have hargs : sizeOf args ≤ n := by simp at ht; omega
            obtain ⟨vs, hvs⟩ :=
              Option.isSome_iff_exists.mp (ih.2 args hargs hfit)
            rw [term_to_value, hvs]
            rfl
        | dict => rfl
        | blob => rfl
        | unknown k => rfl
      · intro l hl hfit
        cases l with
        | nil => rfl
        | cons a rest =>
            rw [intsFitList, Bool.and_eq_true] at hfit
            have ha : sizeOf a ≤ n := by simp at hl; omega
            have hr : sizeOf rest ≤ n := by simp at hl; omega
            obtain ⟨v, hv⟩ := Option.isSome_iff_exists.mp (ih.1 a ha hfit.1)
            obtain ⟨vs, hvs⟩ := Option.isSome_iff_exists.mp (ih.2 rest hr hfit.2)
            rw [seqArgs, hv, hvs]
            rfl

/-- C9 (amended): the Term-to-Value converter is deterministic (it is a
function of the term) and total on every engine term whose integer subterms
fit signed 64 bits, with unknown dynamic types mapped to the symbol
unconvertable; an integer outside that range yields no value. -/
theorem c9_total_on_int64_terms :
    (∀ t : Term, intsFit t = true → (term_to_value t).isSome = true) ∧
    (∀ k : Nat, term_to_value (Term.unknown k) =
      some (Value.symbol "unconvertable")) := by
  constructor
  · intro t h
    exact (t2v_total_aux (sizeOf t)).1 t le_rfl h
  · intro k
    rfl

/-- C9 witness at the list term holding the integer 7. -/
theorem c9_total_on_int64_terms_witness :
    (term_to_value (Term.cons (Term.int 7) Term.nil)).isSome = true :=
  c9_total_on_int64_terms.1 _ (by decide)

/-- C6: a compound with functor f and a nonempty argument list whose
element conversions all succeed converts to Cons(symbol "compound", L)
where L lists the functor text followed by the argument conversions in
order, args.length + 1 elements in all. -/
theorem c6_compound_shape (f : String) (args : List Term) (vs : List Value)
    (_hne : args ≠ []) (hconv : seqArgs args = some vs) :
    term_to_value (Term.compound f args) =
      some (Value.cons (Value.symbol "compound")
        (elispList (Value.str f :: vs))) ∧
    (Value.str f :: vs).length = args.length + 1 := by
  refine ⟨?_, ?_⟩
  · rw [term_to_value, hconv]
    rfl
  · simp [seqArgs_length args vs hconv]

/-- C6 witness at the compound f(1). -/
theorem c6_compound_shape_witness :
    term_to_value (Term.compound "f" [Term.int 1]) =
      some (Value.cons (Value.symbol "compound")
        (elispList [Value.str "f", Value.int 1])) ∧
    ([Value.str "f", Value.int 1] : List Value).length =
      ([Term.int 1] : List Term).length + 1 :=
  c6_compound_shape "f" [Term.int 1] [Value.int 1] (by simp) (by decide)

/-- C2: with a query open, Step raises no signal, and its return value is
nil on no-more-solutions, the exception-tagged pair on an exception, the
t-tagged pair on a solution, and the bang-tagged pair on a provably-last
solution, each pairing the converted term. -/
theorem c2_step_outcome_shapes (s : BState) (r : EngineStep)
    (h : s.current.isSome = true) :
    (sweep_next_solution s r).1.signal = none ∧
    (r = EngineStep.sfalse →
      (sweep_next_solution s r).1.ret = some Value.nil) ∧
    (∀ e ve, r = EngineStep.exc e → term_to_value e = some ve →
      (sweep_next_solution s r).1.ret =
        some (Value.cons (Value.symbol "exception") ve)) ∧
    (∀ sol vo, r = EngineStep.strue sol → term_to_value sol = some vo →
      (sweep_next_solution s r).1.ret = some (Value.cons Value.t vo)) ∧
    (∀ sol vo, r = EngineStep.slast sol → term_to_value sol = some vo →
      (sweep_next_solution s r).1.ret =
        some (Value.cons (Value.symbol "!") vo)) := by
  obtain ⟨cur, nq, oo⟩ := s
  cases cur with
  | none => simp at h
  | some q =>
      refine ⟨?_, ?_, ?_, ?_, ?_⟩
      · cases r <;> rfl
      · rintro rfl; rfl
      · rintro e ve rfl hve
        show econs (some (intern "exception")) (term_to_value e) =
          some (Value.cons (Value.symbol "exception") ve)
        rw [hve]; rfl
      · rintro sol vo rfl hvo
        show econs (some Value.t) (term_to_value sol) =
          some (Value.cons Value.t vo)
        rw [hvo]; rfl
      · rintro sol vo rfl hvo
        show econs (some (intern "!")) (term_to_value sol) =
          some (Value.cons (Value.symbol "!") vo)
        rw [hvo]; rfl

/-- C2 witness: with a query open and the engine reporting no further
solutions, Step returns nil. -/
theorem c2_step_outcome_shapes_witness :
    (sweep_next_solution ⟨some 0, 1, some 0⟩ EngineStep.sfalse).1.ret =
      some Value.nil :=
  (c2_step_outcome_shapes ⟨some 0, 1, some 0⟩ EngineStep.sfalse rfl).2.1 rfl

/-- C3: Step, Cut and Close with no query open signal "No current query";
Open with a query open signals "Prolog is already executing a query" without
opening a second query or changing state; Cut and Close leave the open-query
state reading as closed, and Open on a closed state never raises the
already-executing signal. -/
theorem c3_query_sequencing :
    (∀ s r, s.current = none →
      (sweep_next_solution s r).1.signal = some "No current query") ∧
    (∀ s r, s.current = none →
      (sweep_cut_query s r).1.signal = some "No current query") ∧
    (∀ s r, s.current = none →
      (sweep_close_query s r).1.signal = some "No current query") ∧
    (∀ s a b c v, s.current.isSome = true →
      (sweep_open_query s a b c v).1.signal =
          some "Prolog is already executing a query" ∧
        (sweep_open_query s a b c v).1.opened = false ∧
        (sweep_open_query s a b c v).2 = s) ∧
    (∀ s r, s.current.isSome = true →
      (sweep_cut_query s r).2.current = none ∧
      (sweep_close_query s r).2.current = none) ∧
    (∀ s a b c v, s.current = none →
      (sweep_open_query s a b c v).1.signal ≠
        some "Prolog is already executing a query") := by
  refine ⟨?_, ?_, ?_, ?_, ?_, ?_⟩
  · intro s r h
    obtain ⟨cur, nq, oo⟩ := s
    simp only at h
    subst h
    rfl
  · intro s r h
    obtain ⟨cur, nq, oo⟩ := s
    simp only at h
    subst h
    rfl
  · intro s r h
    obtain ⟨cur, nq, oo⟩ := s
    simp only at h
    subst h
    rfl
  · intro s a b c v h
    refine ⟨?_, ?_, ?_⟩ <;> simp [sweep_open_query, h]
  · intro s r h
    obtain ⟨cur, nq, oo⟩ := s
    obtain ⟨q, hq⟩ := Option.isSome_iff_exists.mp h
    simp only at hq
    subst hq
    exact ⟨by cases r <;> rfl, by cases r <;> rfl⟩
  · intro s a b c v h
    have hne : s.current.isSome = false := by rw [h]; rfl
    rw [sweep_open_query, hne]
    simp only [Bool.false_eq_true, if_false]
    split
    · simp
    · split
      · simp
      · split
        · simp
        · split
          · simp
          · simp

/-- C3 witness: Step from the initial state signals "No current query". -/
theorem c3_query_sequencing_witness :
    (sweep_next_solution initState EngineStep.sfalse).1.signal =
      some "No current query" :=
  c3_query_sequencing.1 initState EngineStep.sfalse rfl

/-- C4: at a concrete Open call whose input value is unsupported for the
Value-to-Term converter (the host boolean t), all three decode buffers are
allocated and freed and the query is not opened, but no failure is
signalled: the call returns the truth value as if it had succeeded. -/
theorem c4_open_conversion_failure_silent :
    (sweep_open_query initState (Value.str "user") (Value.str "user")
        (Value.str "p") Value.t).1 =
      ⟨none, some Value.t, 3, 3, false⟩ ∧
    (sweep_open_query initState (Value.str "user") (Value.str "user")
        (Value.str "p") Value.t).2 = initState :=
  ⟨rfl, rfl⟩

/-- Step never changes the bridge state. -/
theorem sweep_next_solution_state (s : BState) (r : EngineStep) :
    (sweep_next_solution s r).2 = s := by
  obtain ⟨cur, nq, oo⟩ := s
  cases cur with
  | none => rfl
  | some q => cases r <;> rfl

/-- Cut never changes the retained output reference o. -/
theorem sweep_cut_query_o (s : BState) (r : EngineFin) :
    (sweep_cut_query s r).2.o = s.o := by
  obtain ⟨cur, nq, oo⟩ := s
  cases cur with
  | none => rfl
  | some q => cases r <;> rfl

/-- Close never changes the retained output reference o. -/
theorem sweep_close_query_o (s : BState) (r : EngineFin) :
    (sweep_close_query s r).2.o = s.o := by
  obtain ⟨cur, nq, oo⟩ := s
  cases cur with
  | none => rfl
  | some q => cases r <;> rfl

/-- Open either opens the fresh query, setting current and o together, or
leaves the state untouched. -/
theorem sweep_open_query_cases (s : BState) (a b c v : Value) :
    ((sweep_open_query s a b c v).1.opened = true ∧
      (sweep_open_query s a b c v).2 =
        ⟨some s.nextQ, s.nextQ + 1, some s.nextQ⟩) ∨
    ((sweep_open_query s a b c v).1.opened = false ∧
      (sweep_open_query s a b c v).2 = s) := by
  rw [sweep_open_query]
  split
  · right; exact ⟨rfl, rfl⟩
  · split
    · right; exact ⟨rfl, rfl⟩
    · split
      · right; exact ⟨rfl, rfl⟩
      · split
        · right; exact ⟨rfl, rfl⟩
        · split
          · right; exact ⟨rfl, rfl⟩
          · left; exact ⟨rfl, rfl⟩

/-- Cut either leaves the state untouched (no current query) or closes the
current query. -/
theorem sweep_cut_query_state (s : BState) (r : EngineFin) :
    (sweep_cut_query s r).2 = s ∨ (sweep_cut_query s r).2.current = none := by
  obtain ⟨cur, nq, oo⟩ := s
  cases cur with
  | none => left; rfl
  | some q => right; cases r <;> rfl

/-- Close either leaves the state untouched (no current query) or closes the
current query. -/
theorem sweep_close_query_state (s : BState) (r : EngineFin) :
    (sweep_close_query s r).2 = s ∨
      (sweep_close_query s r).2.current = none := by
  obtain ⟨cur, nq, oo⟩ := s
  cases cur with
  | none => left; rfl
  | some q => right; cases r <;> rfl

/-- Every entry-point call preserves the o-coherence invariant. -/
theorem applyOp_OInv (s : BState) (op : Op) (h : OInv s) :
    OInv (applyOp s op) := by
  cases op with
  | openq a b c v =>
      show OInv (sweep_open_query s a b c v).2
      rcases sweep_open_query_cases s a b c v with ⟨_, h2⟩ | ⟨_, h2⟩
      · rw [h2]; intro q hq; cases hq; rfl
      · rw [h2]; exact h
  | stepq r =>
      show OInv (sweep_next_solution s r).2
      rw [sweep_next_solution_state]; exact h
  | cutq r =>
      show OInv (sweep_cut_query s r).2
      rcases sweep_cut_query_state s r with h2 | h2
      · rw [h2]; exact h
      · intro q hq; rw [h2] at hq; cases hq
  | closeq r =>
      show OInv (sweep_close_query s r).2
      rcases sweep_close_query_state s r with h2 | h2
      · rw [h2]; exact h
      · intro q hq; rw [h2] at hq; cases hq

/-- The o-coherence invariant holds in every reachable state. -/
theorem run_OInv (ops : List Op) : OInv (run ops) := by
  have key : ∀ (l : List Op) (s : BState), OInv s → OInv (l.foldl applyOp s) := by
    intro l
    induction l with
    | nil => intro s h; exact h
    | cons op rest ih => intro s h; exact ih _ (applyOp_OInv s op h)
  exact key ops initState (by intro q hq; cases hq)

/-- C10: the retained output reference o is left unchanged by Step, Cut and
Close and by every Open that does not open the query, and whenever Step
dereferences o a query is current and o is exactly that query's output
slot, so the stale reference left behind by Cut or Close is never
converted. -/
theorem c10_output_reference_discipline :
    (∀ s r, (sweep_next_solution s r).2.o = s.o) ∧
    (∀ s r, (sweep_cut_query s r).2.o = s.o) ∧
    (∀ s r, (sweep_close_query s r).2.o = s.o) ∧
    (∀ s a b c v, (sweep_open_query s a b c v).1.opened = false →
      (sweep_open_query s a b c v).2 = s) ∧
    (∀ ops r, stepDerefsO (run ops) r = true →
      ∃ q, (run ops).current = some q ∧ (run ops).o = some q) := by
  refine ⟨?_, ?_, ?_, ?_, ?_⟩
  · intro s r; rw [sweep_next_solution_state]
  · exact sweep_cut_query_o
  · exact sweep_close_query_o
  · intro s a b c v h
    rcases sweep_open_query_cases s a b c v with ⟨h1, _⟩ | ⟨_, h2⟩
    · rw [h] at h1; cases h1
    · exact h2
  · intro ops r h
    rw [stepDerefsO, Bool.and_eq_true] at h
    obtain ⟨q, hq⟩ := Option.isSome_iff_exists.mp h.1
    exact ⟨q, hq, run_OInv ops q hq⟩

/-- C10 witness: after one successful Open, Step would dereference o and o
matches the current query. -/
theorem c10_output_reference_discipline_witness :
    ∃ q, (run [Op.openq (Value.str "u") (Value.str "m") (Value.str "p")
        Value.nil]).current = some q ∧
      (run [Op.openq (Value.str "u") (Value.str "m") (Value.str "p")
        Value.nil]).o = some q :=
  c10_output_reference_discipline.2.2.2.2 _ (EngineStep.strue Term.nil) rfl

end Sweep
